/-
  Verification development for the SemiAutomaticPaintbrush repository
  (src/homography.py and src/paintbrush.py).

  Shallow embedding conventions:
  * Python floats are modelled as exact rationals (ℚ); pixel indices and
    rectangle coordinates as integers (ℤ); luminance values as naturals.
  * The Python builtin int(q) truncates toward zero; pyInt models it.
  * pygame raster surfaces are modelled as a pixel function with a width and
    a height; Surface.fill clips its rectangle to the surface, which fillRect
    reproduces.
  * pygame Rect.collidepoint truncates the coordinates to integers and treats
    the right and bottom edges as outside; collide models that.
  * numpy.linalg.lstsq is an external numerical routine; calculate is
    parameterised over it (any function lstsq from the system matrix and the
    right hand side to a coefficient list).
-/
import Mathlib

/-! ## Basic geometry -/

/-- A 2D point with rational (Python float) coordinates. -/
abbrev Pt := ℚ × ℚ

/-- Python int(q): truncation toward zero. -/
def pyInt (q : ℚ) : ℤ := if 0 ≤ q then ⌊q⌋ else -⌊-q⌋

/-- A pygame Rect: x, y of the top-left corner, width w and height h.
    Its bottom edge is y + h. -/
structure Rect where
  x : ℤ
  y : ℤ
  w : ℤ
  h : ℤ
  deriving DecidableEq, Repr

/-- A single-channel raster (the greyscale canvas surface): dimensions plus a
    pixel function. Only coordinates with 0 ≤ px < width and 0 ≤ py < height
    are raster pixels. -/
structure Raster where
  width : ℤ
  height : ℤ
  pix : ℤ → ℤ → ℕ

/-- Surface.fill(color, rect): sets every pixel inside the rectangle to the
    given value, clipped to the surface area (pygame clips the fill rect to
    the surface). -/
def fillRect (r : Raster) (rect : Rect) (c : ℕ) : Raster :=
  { r with pix := fun px py =>
      if 0 ≤ px ∧ px < r.width ∧ 0 ≤ py ∧ py < r.height ∧
         rect.x ≤ px ∧ px < rect.x + rect.w ∧ rect.y ≤ py ∧ py < rect.y + rect.h
      then c else r.pix px py }

/-- canvas.get_rect().collidepoint(p): pygame truncates the point coordinates
    to integers; a point on the right or bottom edge is not inside. -/
def collide (r : Raster) (p : Pt) : Prop :=
  0 ≤ pyInt p.1 ∧ pyInt p.1 < r.width ∧ 0 ≤ pyInt p.2 ∧ pyInt p.2 < r.height

instance (r : Raster) (p : Pt) : Decidable (collide r p) := by
  unfold collide; infer_instance

/-! ## homography.py: PerspectiveTransform -/

/-- The state of a PerspectiveTransform instance: the target resolution and
    the two parallel point lists. The camera list holds optional points
    because the Python lists are heterogeneous: paintbrush.py may append None
    (the camera found no blob) to camera_points. -/
structure Store where
  resolution : Pt
  display_points : List Pt
  camera_points : List (Option Pt)

/-- PerspectiveTransform.generate_point: the four screen corners in order,
    then None. -/
def generate_point (s : Store) : Option Pt :=
  match s.display_points.length with
  | 0 => some (0, 0)
  | 1 => some (s.resolution.1, 0)
  | 2 => some (0, s.resolution.2)
  | 3 => some s.resolution
  | _ => none

/-- PerspectiveTransform.add_point: appends the pair while fewer than 4 pairs
    are stored (self.points = 4), and reports whether more points are needed
    (len(display_points) != 4). -/
def add_point (s : Store) (display : Pt) (camera : Option Pt) : Bool × Store :=
  let s' := if s.display_points.length < 4 then
      { s with display_points := s.display_points ++ [display],
               camera_points := s.camera_points ++ [camera] }
    else s
  (s'.display_points.length != 4, s')

/-- Row 2i of the DLT system: A[2i][0:2] = (u,v), A[2i][2] = 1,
    A[2i][6] = -u*x, A[2i][7] = -v*x, all other entries left at zero. -/
def rowEven (cp dp : Pt) : List ℚ :=
  [cp.1, cp.2, 1, 0, 0, 0, -cp.1 * dp.1, -cp.2 * dp.1]

/-- Row 2i+1 of the DLT system: A[2i+1][3:5] = (u,v), A[2i+1][5] = 1,
    A[2i+1][6] = -u*y, A[2i+1][7] = -v*y, all other entries left at zero. -/
def rowOdd (cp dp : Pt) : List ℚ :=
  [0, 0, 0, cp.1, cp.2, 1, -cp.1 * dp.2, -cp.2 * dp.2]

/-- The coefficient matrix A built by PerspectiveTransform.calculate: for each
    correspondence i the loop writes rows 2i and 2i+1. A present camera point
    is required by the source (A[2*i][0:2] = self.camera_points[i] faults on
    None); the None case never arises under the hypotheses used below. -/
def buildRows : List (Option Pt) → List Pt → List (List ℚ)
  | some cp :: cps, dp :: dps => rowEven cp dp :: rowOdd cp dp :: buildRows cps dps
  | _, _ => []

/-- The right-hand side B (a 2N-by-1 numpy column, modelled as a flat list):
    B[2i] = x, B[2i+1] = y for target point (x,y). -/
def buildB : List Pt → List ℚ
  | dp :: dps => dp.1 :: dp.2 :: buildB dps
  | [] => []

/-- numpy.reshape(vstack((X,[1])),(3,3)): the 8 solved coefficients followed
    by a fixed trailing 1, reshaped row-major into a 3x3 matrix. -/
def reshape3 (l : List ℚ) : List (List ℚ) :=
  [l.take 3, (l.drop 3).take 3, ((l.drop 3).drop 3).take 3]

/-- PerspectiveTransform.calculate: returns None when fewer than 4 pairs are
    stored; otherwise builds the DLT system, hands it to the external least
    squares routine lstsq, and reshapes the 8 coefficients plus a trailing 1
    into a 3x3 matrix. The method reads but never writes the stored point
    lists, so the state passes through unchanged (second component). -/
def calculate (lstsq : List (List ℚ) → List ℚ → List ℚ) (s : Store) :
    Option (List (List ℚ)) × Store :=
  if s.display_points.length < 4 then (none, s)
  else
    let A := buildRows s.camera_points s.display_points
    let B := buildB s.display_points
    let X := lstsq A B
    (some (reshape3 (X ++ [1])), s)

/-! ## homography.py: Homography.run (key-press step) and
    paintbrush.py: Paintbrush.calibrate -/

/-- Calibration state of paintbrush.py: the transformer store, the currently
    displayed calibration target point, and the transform once computed. -/
structure CalState where
  store : Store
  cal_point : Pt
  transform : Option (List (List ℚ))

/-- Paintbrush.calibrate: reads the camera point and hands it to add_point
    together with the current calibration target, with no check that the
    camera actually returned a point. If more points are needed it generates
    the next target (new_point); otherwise it stores calculate(). Returns
    True while calibration continues. -/
def calibrate (lstsq : List (List ℚ) → List ℚ → List ℚ) (s : CalState)
    (cam : Option Pt) : Bool × CalState :=
  let r := add_point s.store s.cal_point cam
  if r.1 then
    (true, { s with store := r.2, cal_point := (generate_point r.2).getD s.cal_point })
  else
    (false, { s with store := r.2, transform := (calculate lstsq r.2).1 })

/-- Homography.run, generic key-press branch (homography.py lines 256-268):
    the source point is fetched and added only when it is present
    (the body is guarded by: if cam_point). -/
def homographyKeyStep (s : Store) (current : Pt) (cam : Option Pt) : Store :=
  match cam with
  | some cp => (add_point s current (some cp)).2
  | none => s

/-! ## paintbrush.py: Paintbrush state and the painting loop -/

/-- The per-nozzle quantisation of line 146:
    nozzles[i] = min(4, (255 - color) / 48), with Python 2 integer division
    (the average color component is a nonnegative integer at most 255, so
    natural subtraction and division agree with the source). -/
def levelOf (c : ℕ) : ℕ := min 4 ((255 - c) / 48)

/-- The controller state of a Paintbrush instance (the fields the painting
    loop touches). -/
structure PBState where
  canvas : Raster
  nozzles : List ℕ
  point : Option Pt
  dx : ℚ
  painting : Bool
  transform : Fin 3 → Fin 3 → ℚ

/-- numpy.array([c[0], c[1], 1]): the homogeneous sensor vector. -/
def homvec (c : Pt) : Fin 3 → ℚ
  | 0 => c.1
  | 1 => c.2
  | 2 => 1

/-- numpy.dot(transform, p) for a 3-vector p. -/
def matVec3 (T : Fin 3 → Fin 3 → ℚ) (v : Fin 3 → ℚ) : Fin 3 → ℚ :=
  fun i => T i 0 * v 0 + T i 1 * v 1 + T i 2 * v 2

/-- The camera-to-canvas mapping step of update_location (lines 105-107):
    p = transform . (u,v,1); the target candidate is (p 0 / p 2, p 1 / p 2).
    When p 2 = 0 the numpy float division returns non-finite values, which
    is modelled as none; the source has no explicit p 2 = 0 check. -/
def mapPoint (T : Fin 3 → Fin 3 → ℚ) (c : Pt) : Option Pt :=
  let p := matVec3 T (homvec c)
  if p 2 = 0 then none else some (p 0 / p 2, p 1 / p 2)

/-- Paintbrush.update_location. With no camera point the current point is
    cleared. Otherwise the camera point is mapped; if the homogeneous
    denominator is zero the unguarded float division produces non-finite
    coordinates and the following collidepoint integer conversion raises an
    uncaught exception, modelled as Except.error. With a finite mapped point,
    an in-bounds point updates dx (delta versus the previous point, 0 when
    there was none) and becomes the current point; an out-of-bounds point
    clears the current point, leaving dx alone. -/
def update_location (s : PBState) (cam : Option Pt) : Except Unit PBState :=
  match cam with
  | none => Except.ok { s with point := none }
  | some c =>
    match mapPoint s.transform c with
    | none => Except.error ()
    | some np =>
      if collide s.canvas np then
        Except.ok { s with
          dx := match s.point with
                | some op => np.1 - op.1
                | none => 0,
          point := some np }
      else
        Except.ok { s with point := none }

/-- The x and width computation of calculate_brush (lines 124-134):
    width = max(1, int(abs(dx))); x = int(point[0]); the dead right-to-left
    branch subtracts width when dx < 0 (kept from the source, unreachable
    after the early return); finally a negative x is clamped to 0 and width
    grows by the clamped amount. Returns (x, width). -/
def brushX (dx : ℚ) (pt : Pt) : ℤ × ℤ :=
  let width : ℤ := max 1 (pyInt |dx|)
  let x : ℤ := pyInt pt.1
  let x := if dx < 0 then x - width else x
  if x < 0 then (0, width - x) else (x, width)

/-- The nozzle loop of calculate_brush (lines 139-147), with fuel counting
    the remaining iterations (12 on entry) and i the current index. Before
    averaging, the window bottom is checked against the canvas height; on
    overflow the loop stops with h = i + 1. Each processed index stores the
    quantised average of its one-row window and the window moves one row
    down. Returns the nozzle list, the final h, and the list of windows that
    were actually averaged. -/
def brushLoop (avg : Rect → ℕ) (H : ℤ) :
    ℕ → ℕ → Rect → List ℕ → List ℕ × ℕ × List Rect
  | 0, _, _, nz => (nz, 12, [])
  | fuel + 1, i, w, nz =>
    if w.y + w.h > H then (nz, i + 1, [])
    else
      let r := brushLoop avg H fuel (i + 1) { w with y := w.y + 1 }
                 (nz.set i (levelOf (avg w)))
      (r.1, r.2.1, w :: r.2.2)

/-- Paintbrush.calculate_brush: returns immediately when dx < 0; otherwise
    runs the nozzle loop over one-row windows starting at
    (x, int(point[1])) and finally blanks (fills with 255) the rectangle of
    the full window width and height h at the starting corner. The current
    point is passed explicitly (the source reads self.point, which the run
    loop guarantees is not None here). -/
def calculate_brush (avg : Raster → Rect → ℕ) (s : PBState) (pt : Pt) : PBState :=
  if s.dx < 0 then s
  else
    let xw := brushX s.dx pt
    let y := pyInt pt.2
    let r := brushLoop (avg s.canvas) s.canvas.height 12 0
               ⟨xw.1, y, xw.2, 1⟩ s.nozzles
    { s with nozzles := r.1,
             canvas := fillRect s.canvas ⟨xw.1, y, xw.2, (r.2.1 : ℤ)⟩ 255 }

/-- The per-tick nozzle computation of the painting loop (run, lines
    174-176), with the brush-active flag assumed on: the bank is reset to
    twelve zeros and calculate_brush runs only when a current point exists. -/
def computeNozzles (avg : Raster → Rect → ℕ) (s : PBState) : PBState :=
  let s0 := { s with nozzles := List.replicate 12 0 }
  match s0.point with
  | some pt => calculate_brush avg s0 pt
  | none => s0

/-- The windows averaged by computeNozzles for a given current point: the
    same brushLoop call as calculate_brush after the bank reset. -/
def processedWindows (avg : Raster → Rect → ℕ) (s : PBState) (pt : Pt) : List Rect :=
  (brushLoop (avg s.canvas) s.canvas.height 12 0
    ⟨(brushX s.dx pt).1, pyInt pt.2, (brushX s.dx pt).2, 1⟩
    (List.replicate 12 0)).2.2

/-- One painting-phase tick of Paintbrush.run (lines 173-177): update the
    location, reset the bank, and run calculate_brush only when painting is
    toggled on and a current point exists. -/
def paintTick (avg : Raster → Rect → ℕ) (s : PBState) (cam : Option Pt) :
    Except Unit PBState :=
  (update_location s cam).map fun s1 =>
    if s1.painting then computeNozzles avg s1
    else { s1 with nozzles := List.replicate 12 0 }

/-- Paintbrush.send_command: a 6-byte frame; command[0] starts as the 0xC0
    header, and byte i ORs in nozzles[2i] shifted left by 3 and nozzles[2i+1]
    (the fixed range(6) loop is unrolled). -/
def send_command_bytes (nz : List ℕ) : List ℕ :=
  [ (0xC0 ||| (nz.getD 0 0 <<< 3)) ||| nz.getD 1 0,
    (nz.getD 2 0 <<< 3) ||| nz.getD 3 0,
    (nz.getD 4 0 <<< 3) ||| nz.getD 5 0,
    (nz.getD 6 0 <<< 3) ||| nz.getD 7 0,
    (nz.getD 8 0 <<< 3) ||| nz.getD 9 0,
    (nz.getD 10 0 <<< 3) ||| nz.getD 11 0 ]

/-- Modelled from the spec: the inverse of the packing formula, decoding one
    byte into its two 3-bit nozzle levels. -/
def decodeByte (b : ℕ) : List ℕ := [b >>> 3, b &&& 7]

/-- Modelled from the spec: decode a 6-byte frame, masking the header bits
    out of byte 0 first, recovering the 12 levels. -/
def decodeFrame (frame : List ℕ) : List ℕ :=
  match frame with
  | b0 :: rest => ((b0 &&& 0x3F) :: rest).flatMap decodeByte
  | [] => []

/-! ## Test fixtures (concrete instances used by witnesses) -/

/-- A store already holding three correspondences. -/
def storeThree : Store :=
  { resolution := (640, 480),
    display_points := [(0, 0), (640, 0), (0, 480)],
    camera_points := [some (15, 140), some (565, 137), some (29, 447)] }

/-- A store holding no correspondences. -/
def emptyStore : Store :=
  { resolution := (640, 480), display_points := [], camera_points := [] }

/-- A transform whose third row is zero: every sensor point maps to a zero
    homogeneous denominator. -/
def t0 : Fin 3 → Fin 3 → ℚ := fun i j => if i = 2 then 0 else if i = j then 1 else 0

/-- The identity transform. -/
def t1 : Fin 3 → Fin 3 → ℚ := fun i j => if i = j then 1 else 0

/-- An all-white 640 by 480 canvas. -/
def blankCanvas : Raster := { width := 640, height := 480, pix := fun _ _ => 255 }

/-- A controller state with the degenerate transform t0. -/
def s0 : PBState :=
  { canvas := blankCanvas, nozzles := List.replicate 12 0, point := none,
    dx := 0, painting := true, transform := t0 }

/-- A controller state with the identity transform. -/
def s1 : PBState :=
  { canvas := blankCanvas, nozzles := List.replicate 12 0, point := some (10, 10),
    dx := 3, painting := true, transform := t1 }

/-! ## C8 -/

/-- C8: with fewer than 4 stored pairs, calculate fails (returns no
    transform) and leaves the stored correspondences unchanged; the failure
    value is returned to the caller. -/
theorem c8_insufficient_data (lstsq : List (List ℚ) → List ℚ → List ℚ)
    (s : Store) (h : s.display_points.length < 4) :
    calculate lstsq s = (none, s) := by
  simp [calculate, h]

theorem c8_witness :
    storeThree.display_points.length < 4 ∧
    calculate (fun _ _ => []) storeThree = (none, storeThree) :=
  ⟨by norm_num [storeThree],
   c8_insufficient_data (fun _ _ => []) storeThree (by norm_num [storeThree])⟩

/-! ## C6 -/

/-- C6: with a negative horizontal velocity estimate, the per-tick nozzle
    computation produces an all-zero 12-element bank and leaves the raster
    unchanged, whatever its content. -/
theorem c6_left_move_suppression (avg : Raster → Rect → ℕ) (s : PBState)
    (hdx : s.dx < 0) :
    (computeNozzles avg s).nozzles = List.replicate 12 0 ∧
    (computeNozzles avg s).canvas = s.canvas := by
  unfold computeNozzles
  cases hp : s.point with
  | none => simp
  | some pt => simp [calculate_brush, hdx]

theorem c6_witness :
    ({ s1 with dx := -2 } : PBState).dx < 0 ∧
    (computeNozzles (fun _ _ => 0) { s1 with dx := -2 }).nozzles = List.replicate 12 0 ∧
    (computeNozzles (fun _ _ => 0) { s1 with dx := -2 }).canvas = ({ s1 with dx := -2 } : PBState).canvas :=
  ⟨by norm_num,
   c6_left_move_suppression (fun _ _ => 0) { s1 with dx := -2 } (by norm_num)⟩

/-! ## C7 -/

/-- C7: when the camera returns no point, or the finite mapped point falls
    outside the raster bounds, update_location clears the current point
    without touching dx, and the subsequent per-tick nozzle computation
    yields an all-zero bank and leaves the raster unchanged. -/
theorem c7_out_of_bounds_lift (avg : Raster → Rect → ℕ) (s : PBState)
    (cam : Option Pt)
    (h : cam = none ∨ ∃ c np, cam = some c ∧ mapPoint s.transform c = some np ∧
           ¬ collide s.canvas np) :
    ∃ s', update_location s cam = Except.ok s' ∧ s'.point = none ∧ s'.dx = s.dx ∧
      (computeNozzles avg s').nozzles = List.replicate 12 0 ∧
      (computeNozzles avg s').canvas = s.canvas := by
  rcases h with rfl | ⟨c, np, rfl, hmap, hcol⟩
  · exact ⟨_, rfl, rfl, rfl, by simp [computeNozzles], by simp [computeNozzles]⟩
  · refine ⟨{ s with point := none }, ?_, rfl, rfl, by simp [computeNozzles],
      by simp [computeNozzles]⟩
    simp only [update_location, hmap]
    rw [if_neg hcol]

theorem c7_witness :
    (none : Option Pt) = none ∧
    ∃ s', update_location s1 none = Except.ok s' ∧ s'.point = none ∧ s'.dx = s1.dx ∧
      (computeNozzles (fun _ _ => 0) s').nozzles = List.replicate 12 0 ∧
      (computeNozzles (fun _ _ => 0) s').canvas = s1.canvas :=
  ⟨rfl, c7_out_of_bounds_lift (fun _ _ => 0) s1 none (Or.inl rfl)⟩

/-! ## C3 -/

/-- C3 counterexample: at a transform with an all-zero third row the
    homogeneous denominator of the mapped sensor point (0,0) is exactly 0,
    and the embedded update_location step faults (the source performs the
    division unguarded; the non-finite result makes the following bounds
    test raise) instead of treating the frame as having no usable point. -/
theorem c3_counterexample :
    matVec3 t0 (homvec (0, 0)) 2 = 0 ∧
    update_location s0 (some (0, 0)) = Except.error () := by
  have h : matVec3 t0 (homvec (0, 0)) 2 = 0 := by
    simp [matVec3, t0, homvec]
  refine ⟨h, ?_⟩
  simp only [update_location, s0, mapPoint, h]
  simp [mapPoint, t0, homvec, matVec3]

/-- C3 (amended): the mapping computes r = transform . (u,v,1); whenever
    r 2 is nonzero it produces the target point (r 0 / r 2, r 1 / r 2) and
    the update step completes normally. The source contains no r 2 = 0
    check: in that case the unguarded division is reached (see
    c3_counterexample). -/
theorem c3_perspective_divide (s : PBState) (c : Pt)
    (hz : matVec3 s.transform (homvec c) 2 ≠ 0) :
    mapPoint s.transform c =
      some (matVec3 s.transform (homvec c) 0 / matVec3 s.transform (homvec c) 2,
            matVec3 s.transform (homvec c) 1 / matVec3 s.transform (homvec c) 2) ∧
    ∃ s', update_location s (some c) = Except.ok s' := by
  have h1 : mapPoint s.transform c =
      some (matVec3 s.transform (homvec c) 0 / matVec3 s.transform (homvec c) 2,
            matVec3 s.transform (homvec c) 1 / matVec3 s.transform (homvec c) 2) := by
    simp [mapPoint, hz]
  refine ⟨h1, ?_⟩
  simp only [update_location, h1]
  split
  · exact ⟨_, rfl⟩
  · exact ⟨_, rfl⟩

theorem c3_witness :
    matVec3 s1.transform (homvec (7, 9)) 2 ≠ 0 ∧
    (mapPoint s1.transform (7, 9) =
      some (matVec3 s1.transform (homvec (7, 9)) 0 / matVec3 s1.transform (homvec (7, 9)) 2,
            matVec3 s1.transform (homvec (7, 9)) 1 / matVec3 s1.transform (homvec (7, 9)) 2) ∧
     ∃ s', update_location s1 (some (7, 9)) = Except.ok s') :=
  ⟨by norm_num [matVec3, s1, t1, homvec, Fin.ext_iff],
   c3_perspective_divide s1 (7, 9) (by norm_num [matVec3, s1, t1, homvec, Fin.ext_iff])⟩

/-! ## C9 -/

/-- C9 (code bug): paintbrush.py calls add_point with whatever the camera
    returned, without a presence check, so a calibration step with no sensor
    point stores the pair (target, None) in the correspondence store; the
    sibling interactive loop in homography.py guards the same call and adds
    nothing when the source returns no point. -/
theorem c9_calibrate_adds_none :
    ((calibrate (fun _ _ => []) ⟨emptyStore, (0, 0), none⟩ none).2).store.camera_points
        = [none] ∧
    homographyKeyStep emptyStore (0, 0) none = emptyStore := by
  constructor
  · rfl
  · rfl

/-! ## C2 -/

/-- Packing two levels below 5 into one byte is reversible: the high shift
    recovers the first, the low mask the second. -/
lemma pack_unpack : ∀ a, a < 5 → ∀ b, b < 5 →
    (((a <<< 3) ||| b) >>> 3 = a ∧ ((a <<< 3) ||| b) &&& 7 = b) := by decide

/-- Masking the header bits out of byte 0 recovers the packed pair. -/
lemma pack_header : ∀ a, a < 5 → ∀ b, b < 5 →
    ((0xC0 ||| ((a <<< 3) ||| b)) &&& 0x3F) = (a <<< 3) ||| b := by decide

/-- The source ORs the header first, then the two levels; reassociation to
    header-last form, needed to apply pack_header. -/
lemma pack_assoc (a b : ℕ) :
    ((0xC0 ||| (a <<< 3)) ||| b) = 0xC0 ||| ((a <<< 3) ||| b) := by
  exact Nat.lor_assoc 0xC0 (a <<< 3) b

/-- C2: for a bank of 12 levels each in [0,4], send_command produces exactly
    6 bytes; byte 0 is the header ORed with the first packed pair, byte i
    (1 ≤ i ≤ 5) packs levels 2i and 2i+1; and decoding by the inverse
    formula, after masking the header out of byte 0, recovers the 12 levels
    exactly. -/
theorem c2_encode_roundtrip (bank : List ℕ) (hlen : bank.length = 12)
    (hb : ∀ v ∈ bank, v < 5) :
    (send_command_bytes bank).length = 6 ∧
    (send_command_bytes bank).getD 0 0 =
      (0xC0 ||| (bank.getD 0 0 <<< 3)) ||| bank.getD 1 0 ∧
    (∀ i, 1 ≤ i → i < 6 → (send_command_bytes bank).getD i 0 =
      (bank.getD (2 * i) 0 <<< 3) ||| bank.getD (2 * i + 1) 0) ∧
    decodeFrame (send_command_bytes bank) = bank := by
  rcases bank with _ | ⟨a0, _ | ⟨a1, _ | ⟨a2, _ | ⟨a3, _ | ⟨a4, _ | ⟨a5, _ | ⟨a6,
    _ | ⟨a7, _ | ⟨a8, _ | ⟨a9, _ | ⟨a10, _ | ⟨a11, rest⟩⟩⟩⟩⟩⟩⟩⟩⟩⟩⟩⟩ <;>
      simp only [List.length_cons, List.length_nil] at hlen <;> try omega
  obtain rfl : rest = [] := List.length_eq_zero.mp (by omega)
  have h0 : a0 < 5 := hb a0 (by simp)
  have h1 : a1 < 5 := hb a1 (by simp)
  have h2 : a2 < 5 := hb a2 (by simp)
  have h3 : a3 < 5 := hb a3 (by simp)
  have h4 : a4 < 5 := hb a4 (by simp)
  have h5 : a5 < 5 := hb a5 (by simp)
  have h6 : a6 < 5 := hb a6 (by simp)
  have h7 : a7 < 5 := hb a7 (by simp)
  have h8 : a8 < 5 := hb a8 (by simp)
  have h9 : a9 < 5 := hb a9 (by simp)
  have h10 : a10 < 5 := hb a10 (by simp)
  have h11 : a11 < 5 := hb a11 (by simp)
  refine ⟨rfl, rfl, ?_, ?_⟩
  · intro i hi1 hi6
    interval_cases i <;> rfl
  · simp only [send_command_bytes, decodeFrame, decodeByte, List.flatMap_cons,
      List.flatMap_nil, List.getD_cons_zero, List.getD_cons_succ, List.cons_append,
      List.nil_append, List.append_nil, pack_assoc, pack_header a0 h0 a1 h1,
      (pack_unpack a0 h0 a1 h1).1, (pack_unpack a0 h0 a1 h1).2,
      (pack_unpack a2 h2 a3 h3).1, (pack_unpack a2 h2 a3 h3).2,
      (pack_unpack a4 h4 a5 h5).1, (pack_unpack a4 h4 a5 h5).2,
      (pack_unpack a6 h6 a7 h7).1, (pack_unpack a6 h6 a7 h7).2,
      (pack_unpack a8 h8 a9 h9).1, (pack_unpack a8 h8 a9 h9).2,
      (pack_unpack a10 h10 a11 h11).1, (pack_unpack a10 h10 a11 h11).2]

theorem c2_witness :
    ((([0, 1, 2, 3, 4, 0, 1, 2, 3, 4, 0, 1] : List ℕ).length = 12) ∧
      (∀ v ∈ ([0, 1, 2, 3, 4, 0, 1, 2, 3, 4, 0, 1] : List ℕ), v < 5)) ∧
    decodeFrame (send_command_bytes [0, 1, 2, 3, 4, 0, 1, 2, 3, 4, 0, 1]) =
      [0, 1, 2, 3, 4, 0, 1, 2, 3, 4, 0, 1] :=
  ⟨⟨by decide, by decide⟩,
   (c2_encode_roundtrip [0, 1, 2, 3, 4, 0, 1, 2, 3, 4, 0, 1] (by decide)
      (by decide)).2.2.2⟩

/-! ## C1 -/

/-- The system matrix has one row pair per correspondence. -/
lemma buildRows_length (cps : List Pt) (dps : List Pt)
    (h : cps.length = dps.length) :
    (buildRows (cps.map some) dps).length = 2 * dps.length := by
  induction cps generalizing dps with
  | nil =>
    cases dps with
    | nil => simp [buildRows]
    | cons d ds => simp at h
  | cons c cs ih =>
    cases dps with
    | nil => simp at h
    | cons d ds =>
      have := ih ds (by simpa using h)
      simp [buildRows, this]
      omega

/-- Every row of the system matrix has 8 columns. -/
lemma buildRows_row_length (cps : List (Option Pt)) (dps : List Pt) :
    ∀ row ∈ buildRows cps dps, row.length = 8 := by
  induction cps generalizing dps with
  | nil => intro row hrow; simp [buildRows] at hrow
  | cons c cs ih =>
    intro row hrow
    cases c with
    | none => simp [buildRows] at hrow
    | some cp =>
      cases dps with
      | nil => simp [buildRows] at hrow
      | cons d ds =>
        simp only [buildRows, List.mem_cons] at hrow
        rcases hrow with rfl | rfl | hrow
        · simp [rowEven]
        · simp [rowOdd]
        · exact ih ds row hrow

/-- The right-hand side has two entries per correspondence. -/
lemma buildB_length (dps : List Pt) : (buildB dps).length = 2 * dps.length := by
  induction dps with
  | nil => simp [buildB]
  | cons d ds ih => simp [buildB, ih]; omega

/-- Rows 2i and 2i+1 of the system matrix are exactly the two DLT rows of
    correspondence i. -/
lemma buildRows_get (cps dps : List Pt) (i : ℕ) (cp dp : Pt)
    (h1 : cps[i]? = some cp) (h2 : dps[i]? = some dp) :
    (buildRows (cps.map some) dps)[2 * i]? = some (rowEven cp dp) ∧
    (buildRows (cps.map some) dps)[2 * i + 1]? = some (rowOdd cp dp) := by
  induction cps generalizing dps i with
  | nil => simp at h1
  | cons c cs ih =>
    cases dps with
    | nil => simp at h2
    | cons d ds =>
      cases i with
      | zero =>
        simp only [List.getElem?_cons_zero, Option.some.injEq] at h1 h2
        subst h1; subst h2
        constructor <;>
          simp [buildRows, List.getElem?_cons_zero, List.getElem?_cons_succ]
      | succ j =>
        simp only [List.getElem?_cons_succ] at h1 h2
        have hrw : 2 * (j + 1) = 2 * j + 1 + 1 := by ring
        rw [hrw]
        simpa [buildRows, List.getElem?_cons_succ] using ih ds j h1 h2

/-- Entries 2i and 2i+1 of the right-hand side are the coordinates of target
    point i. -/
lemma buildB_get (dps : List Pt) (i : ℕ) (dp : Pt) (h : dps[i]? = some dp) :
    (buildB dps)[2 * i]? = some dp.1 ∧ (buildB dps)[2 * i + 1]? = some dp.2 := by
  induction dps generalizing i with
  | nil => simp at h
  | cons d ds ih =>
    cases i with
    | zero =>
      simp only [List.getElem?_cons_zero, Option.some.injEq] at h
      subst h
      constructor <;>
        simp [buildB, List.getElem?_cons_zero, List.getElem?_cons_succ]
    | succ j =>
      simp only [List.getElem?_cons_succ] at h
      have hrw : 2 * (j + 1) = 2 * j + 1 + 1 := by ring
      rw [hrw]
      simpa [buildB, List.getElem?_cons_succ] using ih j h

/-- C1: with at least four stored pairs, calculate builds the 2N-by-8 DLT
    matrix (row 2i = [u, v, 1, 0, 0, 0, -u*x, -v*x], row 2i+1 =
    [0, 0, 0, u, v, 1, -u*y, -v*y]) and right-hand side (B[2i] = x,
    B[2i+1] = y), hands them to the least-squares routine, and returns the
    3x3 matrix of the 8 solved coefficients followed by a trailing 1,
    row-major. -/
theorem c1_dlt_system (lstsq : List (List ℚ) → List ℚ → List ℚ) (s : Store)
    (cps : List Pt) (hc : s.camera_points = cps.map some)
    (hlen : cps.length = s.display_points.length)
    (hn : 4 ≤ s.display_points.length)
    (X : List ℚ)
    (hX : lstsq (buildRows s.camera_points s.display_points)
            (buildB s.display_points) = X)
    (hX8 : X.length = 8) :
    (buildRows s.camera_points s.display_points).length =
        2 * s.display_points.length ∧
    (∀ row ∈ buildRows s.camera_points s.display_points, row.length = 8) ∧
    (buildB s.display_points).length = 2 * s.display_points.length ∧
    (∀ i cp dp, cps[i]? = some cp → s.display_points[i]? = some dp →
      (buildRows s.camera_points s.display_points)[2 * i]? =
        some ([cp.1, cp.2, 1, 0, 0, 0, -cp.1 * dp.1, -cp.2 * dp.1] : List ℚ) ∧
      (buildRows s.camera_points s.display_points)[2 * i + 1]? =
        some ([0, 0, 0, cp.1, cp.2, 1, -cp.1 * dp.2, -cp.2 * dp.2] : List ℚ) ∧
      (buildB s.display_points)[2 * i]? = some dp.1 ∧
      (buildB s.display_points)[2 * i + 1]? = some dp.2) ∧
    calculate lstsq s =
      (some [[X.getD 0 0, X.getD 1 0, X.getD 2 0],
             [X.getD 3 0, X.getD 4 0, X.getD 5 0],
             [X.getD 6 0, X.getD 7 0, 1]], s) := by
  rcases X with _ | ⟨x0, _ | ⟨x1, _ | ⟨x2, _ | ⟨x3, _ | ⟨x4, _ | ⟨x5, _ | ⟨x6,
    _ | ⟨x7, xrest⟩⟩⟩⟩⟩⟩⟩⟩ <;>
      simp only [List.length_cons, List.length_nil] at hX8 <;> try omega
  obtain rfl : xrest = [] := List.length_eq_zero.mp (by omega)
  refine ⟨?_, buildRows_row_length _ _, buildB_length _, ?_, ?_⟩
  · rw [hc]; exact buildRows_length cps s.display_points hlen
  · intro i cp dp h1 h2
    have hr := buildRows_get cps s.display_points i cp dp h1 h2
    have hb := buildB_get s.display_points i dp h2
    rw [hc]
    exact ⟨hr.1, hr.2, hb.1, hb.2⟩
  · have hlt : ¬ s.display_points.length < 4 := by omega
    simp only [calculate, hlt, if_false, hX]
    rfl

/-- A store holding the four corner correspondences. -/
def storeFour : Store :=
  { resolution := (640, 480),
    display_points := [(0, 0), (640, 0), (0, 480), (640, 480)],
    camera_points := [some (15, 140), some (565, 137), some (29, 447),
                      some (560, 432)] }

theorem c1_witness :
    4 ≤ storeFour.display_points.length ∧
    calculate (fun _ _ => [(1 : ℚ), 0, 0, 0, 1, 0, 0, 0]) storeFour =
      (some [[1, 0, 0], [0, 1, 0], [0, 0, 1]], storeFour) :=
  ⟨by norm_num [storeFour],
   (c1_dlt_system (fun _ _ => [(1 : ℚ), 0, 0, 0, 1, 0, 0, 0]) storeFour
      [(15, 140), (565, 137), (29, 447), (560, 432)]
      (by norm_num [storeFour]) (by norm_num [storeFour])
      (by norm_num [storeFour]) [(1 : ℚ), 0, 0, 0, 1, 0, 0, 0]
      rfl (by norm_num)).2.2.2.2⟩

/-! ## brushLoop lemmas (shared by C4, C5, C10) -/

/-- Every window actually averaged by the nozzle loop has its bottom edge at
    or above the canvas height: the bound is checked before the average. -/
lemma brushLoop_windows_bounded (avg : Rect → ℕ) (H : ℤ) :
    ∀ (fuel i : ℕ) (w : Rect) (nz : List ℕ),
    ∀ r ∈ (brushLoop avg H fuel i w nz).2.2, r.y + r.h ≤ H := by
  intro fuel
  induction fuel with
  | zero => intro i w nz r hr; simp [brushLoop] at hr
  | succ f ih =>
    intro i w nz r hr
    by_cases hb : w.y + w.h > H
    · simp [brushLoop, hb] at hr
    · simp only [brushLoop, if_neg hb, List.mem_cons] at hr
      rcases hr with rfl | hr
      · omega
      · exact ih _ _ _ r hr

/-- The number of windows averaged is the remaining fuel capped by the
    remaining rows below the window top. -/
lemma brushLoop_windows_length (avg : Rect → ℕ) (H : ℤ) :
    ∀ (fuel i : ℕ) (w : Rect) (nz : List ℕ), w.h = 1 →
    ((brushLoop avg H fuel i w nz).2.2).length = min fuel (H - w.y).toNat := by
  intro fuel
  induction fuel with
  | zero => intro i w nz hw; simp [brushLoop]
  | succ f ih =>
    intro i w nz hw
    by_cases hb : w.y + w.h > H
    · have h0 : (H - w.y).toNat = 0 := by omega
      simp [brushLoop, hb, h0]
    · simp only [brushLoop, if_neg hb, List.length_cons]
      rw [ih (i + 1) { w with y := w.y + 1 } (nz.set i (levelOf (avg w))) hw]
      simp only
      omega

/-- Window k of the averaged list is the one-row window k rows below the
    start. -/
lemma brushLoop_windows_get (avg : Rect → ℕ) (H : ℤ) :
    ∀ (fuel i : ℕ) (w : Rect) (nz : List ℕ), w.h = 1 →
    ∀ k, ((brushLoop avg H fuel i w nz).2.2)[k]? =
      if k < min fuel (H - w.y).toNat then
        some ⟨w.x, w.y + (k : ℤ), w.w, 1⟩
      else none := by
  intro fuel
  induction fuel with
  | zero =>
    intro i w nz hw k
    rw [if_neg (by omega)]
    simp [brushLoop]
  | succ f ih =>
    intro i w nz hw k
    by_cases hb : w.y + w.h > H
    · rw [if_neg (by omega)]
      simp [brushLoop, hb]
    · simp only [brushLoop, if_neg hb]
      cases k with
      | zero =>
        rw [if_pos (by omega)]
        simp only [List.getElem?_cons_zero, Option.some.injEq]
        have hx : w = ⟨w.x, w.y, w.w, w.h⟩ := rfl
        rw [hx, hw]
        norm_num
      | succ k' =>
        simp only [List.getElem?_cons_succ]
        rw [ih (i + 1) { w with y := w.y + 1 } (nz.set i (levelOf (avg w))) hw k']
        simp only
        by_cases hk : k' < min f (H - (w.y + 1)).toNat
        · rw [if_pos hk, if_pos (by omega)]
          have hy : w.y + 1 + (k' : ℤ) = w.y + ((k' + 1 : ℕ) : ℤ) := by
            push_cast; ring
          rw [hy]
        · rw [if_neg hk, if_neg (by omega)]

/-- The final h of the nozzle loop: 12 when the fuel ran out without hitting
    the bottom, and one past the break index otherwise. -/
lemma brushLoop_h (avg : Rect → ℕ) (H : ℤ) :
    ∀ (fuel i : ℕ) (w : Rect) (nz : List ℕ), w.h = 1 →
    (0 ≤ H - w.y ∨ fuel ≠ 0) →
    (brushLoop avg H fuel i w nz).2.1 =
      if (fuel : ℤ) ≤ H - w.y then 12 else i + (H - w.y).toNat + 1 := by
  intro fuel
  induction fuel with
  | zero =>
    intro i w nz hw hc
    rcases hc with hc | hc
    · rw [if_pos (by omega)]; simp [brushLoop]
    · omega
  | succ f ih =>
    intro i w nz hw hc
    by_cases hb : w.y + w.h > H
    · rw [if_neg (by omega)]
      simp only [brushLoop, if_pos hb]
      omega
    · simp only [brushLoop, if_neg hb]
      rw [ih (i + 1) { w with y := w.y + 1 } (nz.set i (levelOf (avg w))) hw
        (Or.inl (show 0 ≤ H - (w.y + 1) by omega))]
      simp only
      split <;> split <;> omega

/-- The loop only overwrites bank entries; the bank length is preserved. -/
lemma brushLoop_nozzles_length (avg : Rect → ℕ) (H : ℤ) :
    ∀ (fuel i : ℕ) (w : Rect) (nz : List ℕ),
    ((brushLoop avg H fuel i w nz).1).length = nz.length := by
  intro fuel
  induction fuel with
  | zero => intro i w nz; simp [brushLoop]
  | succ f ih =>
    intro i w nz
    by_cases hb : w.y + w.h > H
    · simp [brushLoop, hb]
    · simp only [brushLoop, if_neg hb]
      rw [ih (i + 1) { w with y := w.y + 1 } (nz.set i (levelOf (avg w)))]
      simp

/-- Bank entry j after the loop: the quantised average of the one-row window
    j - i rows below the start when j is one of the processed indices,
    untouched otherwise. -/
lemma brushLoop_nozzles_get (avg : Rect → ℕ) (H : ℤ) :
    ∀ (fuel i : ℕ) (w : Rect) (nz : List ℕ), w.h = 1 →
    i + fuel ≤ nz.length →
    ∀ j, ((brushLoop avg H fuel i w nz).1)[j]? =
      if i ≤ j ∧ j < i + min fuel (H - w.y).toNat then
        some (levelOf (avg ⟨w.x, w.y + ((j - i : ℕ) : ℤ), w.w, 1⟩))
      else nz[j]? := by
  intro fuel
  induction fuel with
  | zero =>
    intro i w nz hw hn j
    rw [if_neg (by omega)]
    simp [brushLoop]
  | succ f ih =>
    intro i w nz hw hn j
    by_cases hb : w.y + w.h > H
    · rw [if_neg (by omega)]
      simp [brushLoop, hb]
    · simp only [brushLoop, if_neg hb]
      rw [ih (i + 1) { w with y := w.y + 1 } (nz.set i (levelOf (avg w))) hw
        (by simpa using by omega) j]
      simp only
      by_cases hj : j = i
      · subst hj
        rw [if_neg (by omega), if_pos (by omega)]
        rw [List.getElem?_set_self (by omega)]
        have hx : (⟨w.x, w.y + ((j - j : ℕ) : ℤ), w.w, 1⟩ : Rect) = ⟨w.x, w.y, w.w, w.h⟩ := by
          rw [hw]; norm_num
        rw [hx]
      · by_cases hjj : i + 1 ≤ j ∧ j < i + 1 + min f (H - (w.y + 1)).toNat
        · rw [if_pos hjj, if_pos (by omega)]
          have hy : w.y + 1 + ((j - (i + 1) : ℕ) : ℤ) = w.y + ((j - i : ℕ) : ℤ) := by
            have h1 : i + 1 ≤ j := hjj.1
            omega
          rw [hy]
        · rw [if_neg hjj, if_neg (by omega)]
          exact List.getElem?_set_ne (by omega)

/-- The loop keeps all bank entries at most 4: each written level is a
    min with 4. -/
lemma brushLoop_nozzles_le (avg : Rect → ℕ) (H : ℤ) :
    ∀ (fuel i : ℕ) (w : Rect) (nz : List ℕ), (∀ v ∈ nz, v ≤ 4) →
    ∀ v ∈ (brushLoop avg H fuel i w nz).1, v ≤ 4 := by
  intro fuel
  induction fuel with
  | zero => intro i w nz hnz v hv; exact hnz v (by simpa [brushLoop] using hv)
  | succ f ih =>
    intro i w nz hnz v hv
    by_cases hb : w.y + w.h > H
    · exact hnz v (by simpa [brushLoop, hb] using hv)
    · simp only [brushLoop, if_neg hb] at hv
      refine ih (i + 1) { w with y := w.y + 1 } (nz.set i (levelOf (avg w))) ?_ v hv
      intro u hu
      rcases List.mem_or_eq_of_mem_set hu with hu | rfl
      · exact hnz u hu
      · exact Nat.min_le_left 4 _

/-! ## C4 -/

/-- With a nonnegative dx and a nonnegative starting column, brushX is just
    the truncated point x and the window width max(1, int(abs(dx))): the
    right-to-left branch and the clamp are inert. -/
lemma brushX_of_nonneg (dx : ℚ) (pt : Pt) (hdx : 0 ≤ dx) (hx : 0 ≤ pyInt pt.1) :
    brushX dx pt = (pyInt pt.1, max 1 (pyInt |dx|)) := by
  simp only [brushX]
  rw [if_neg (not_lt.mpr hdx), if_neg (not_lt.mpr hx)]

/-- The number of rows actually averaged: all 12, or the rows remaining
    between the starting row and the canvas bottom. -/
lemma processedWindows_length (avg : Raster → Rect → ℕ) (s : PBState) (pt : Pt) :
    (processedWindows avg s pt).length =
      min 12 (s.canvas.height - pyInt pt.2).toNat := by
  unfold processedWindows
  exact brushLoop_windows_length (avg s.canvas) s.canvas.height 12 0
    ⟨(brushX s.dx pt).1, pyInt pt.2, (brushX s.dx pt).2, 1⟩
    (List.replicate 12 0) rfl

/-- C4: with a nonnegative dx and an in-bounds current point, the per-tick
    nozzle computation blanks (sets to 255) exactly the raster region of the
    full window width and the rows actually averaged, anchored at the
    starting column and starting row; every raster pixel outside that region
    is unchanged. (After an early break the source fills one extra row, but
    that row lies at or below the canvas bottom and pygame clips the fill,
    so it contains no raster pixel.) -/
theorem c4_blanking (avg : Raster → Rect → ℕ) (s : PBState) (pt : Pt)
    (hpt : s.point = some pt) (hdx : 0 ≤ s.dx) (hin : collide s.canvas pt) :
    (computeNozzles avg s).canvas.width = s.canvas.width ∧
    (computeNozzles avg s).canvas.height = s.canvas.height ∧
    ∀ px py : ℤ, 0 ≤ px → px < s.canvas.width → 0 ≤ py → py < s.canvas.height →
      (computeNozzles avg s).canvas.pix px py =
        if pyInt pt.1 ≤ px ∧ px < pyInt pt.1 + max 1 (pyInt |s.dx|) ∧
           pyInt pt.2 ≤ py ∧
           py < pyInt pt.2 + ((processedWindows avg s pt).length : ℤ) then 255
        else s.canvas.pix px py := by
  obtain ⟨hx0, hxW, hy0, hyH⟩ := hin
  have hnd : ¬ s.dx < 0 := not_lt.mpr hdx
  have hbx : brushX s.dx pt = (pyInt pt.1, max 1 (pyInt |s.dx|)) :=
    brushX_of_nonneg s.dx pt hdx hx0
  have hP := processedWindows_length avg s pt
  have hh := brushLoop_h (avg s.canvas) s.canvas.height 12 0
    ⟨(brushX s.dx pt).1, pyInt pt.2, (brushX s.dx pt).2, 1⟩
    (List.replicate 12 0) rfl (Or.inr (by omega))
  simp only [computeNozzles, hpt]
  simp only [calculate_brush, hnd, if_false, fillRect]
  refine ⟨trivial, trivial, ?_⟩
  intro px py hpx0 hpxW hpy0 hpyH
  rw [hP]
  rcases le_or_lt ((12 : ℕ) : ℤ) (s.canvas.height - pyInt pt.2) with hc | hc
  · rw [if_pos hc] at hh
    rw [hh, hbx]
    dsimp only
    split_ifs <;> first | rfl | (exfalso; omega)
  · rw [if_neg (not_le.mpr hc)] at hh
    rw [hh, hbx]
    dsimp only
    split_ifs <;> first | rfl | (exfalso; omega)

/-! ## C5 and C10 -/

/-- Under the painting-step hypotheses, the bank after the tick is the bank
    computed by the nozzle loop from a fresh all-zero bank. -/
lemma computeNozzles_nozzles_eq (avg : Raster → Rect → ℕ) (s : PBState) (pt : Pt)
    (hpt : s.point = some pt) (hdx : 0 ≤ s.dx) :
    (computeNozzles avg s).nozzles =
      (brushLoop (avg s.canvas) s.canvas.height 12 0
        ⟨(brushX s.dx pt).1, pyInt pt.2, (brushX s.dx pt).2, 1⟩
        (List.replicate 12 0)).1 := by
  simp only [computeNozzles, hpt, calculate_brush]
  rw [if_neg (not_lt.mpr hdx)]

/-- The k-th averaged window in closed form. -/
lemma processedWindows_get (avg : Raster → Rect → ℕ) (s : PBState) (pt : Pt) :
    ∀ k, (processedWindows avg s pt)[k]? =
      if k < min 12 (s.canvas.height - pyInt pt.2).toNat then
        some ⟨(brushX s.dx pt).1, pyInt pt.2 + (k : ℤ), (brushX s.dx pt).2, 1⟩
      else none := by
  intro k
  unfold processedWindows
  exact brushLoop_windows_get (avg s.canvas) s.canvas.height 12 0
    ⟨(brushX s.dx pt).1, pyInt pt.2, (brushX s.dx pt).2, 1⟩
    (List.replicate 12 0) rfl k

/-- The k-th bank entry after the tick in closed form: the quantised window
    average for processed indices, the fresh zero otherwise. -/
lemma computeNozzles_get (avg : Raster → Rect → ℕ) (s : PBState) (pt : Pt)
    (hpt : s.point = some pt) (hdx : 0 ≤ s.dx) :
    ∀ k, (computeNozzles avg s).nozzles[k]? =
      if k < min 12 (s.canvas.height - pyInt pt.2).toNat then
        some (levelOf (avg s.canvas
          ⟨(brushX s.dx pt).1, pyInt pt.2 + (k : ℤ), (brushX s.dx pt).2, 1⟩))
      else (List.replicate 12 0)[k]? := by
  intro k
  rw [computeNozzles_nozzles_eq avg s pt hpt hdx]
  rw [brushLoop_nozzles_get (avg s.canvas) s.canvas.height 12 0
    ⟨(brushX s.dx pt).1, pyInt pt.2, (brushX s.dx pt).2, 1⟩
    (List.replicate 12 0) rfl (by simp) k]
  simp only [Nat.zero_le, true_and, Nat.zero_add, Nat.sub_zero]

set_option maxRecDepth 4096

/-- C5: each processed bank entry is the quantisation of its window average;
    the source formula min(4, (255 - mean) / 48) equals the clamp
    clamp(0, 4, floor((255 - mean) / 48)) for any mean at most 255; mean 255
    gives level 0; any mean at most 63 gives level 4; the level is
    monotonically non-decreasing as the mean decreases; and every bank entry
    handed to the encoder is at most 4. -/
theorem c5_quantization (avg : Raster → Rect → ℕ) (s : PBState) (pt : Pt)
    (hpt : s.point = some pt) (hdx : 0 ≤ s.dx) :
    (∀ (k : ℕ) (w : Rect), (processedWindows avg s pt)[k]? = some w →
       (computeNozzles avg s).nozzles[k]? = some (levelOf (avg s.canvas w))) ∧
    (∀ c : ℕ, c ≤ 255 → (levelOf c : ℤ) = max 0 (min 4 ((255 - (c : ℤ)) / 48))) ∧
    levelOf 255 = 0 ∧
    (∀ c : ℕ, c ≤ 63 → levelOf c = 4) ∧
    (∀ c c' : ℕ, c' ≤ c → levelOf c ≤ levelOf c') ∧
    (∀ v ∈ (computeNozzles avg s).nozzles, v ≤ 4) := by
  refine ⟨?_, by decide, by decide, by decide, ?_, ?_⟩
  · intro k w hk
    rw [processedWindows_get avg s pt k] at hk
    by_cases hc : k < min 12 (s.canvas.height - pyInt pt.2).toNat
    · rw [if_pos hc] at hk
      obtain rfl := (Option.some.injEq _ _).mp hk
      rw [computeNozzles_get avg s pt hpt hdx k, if_pos hc]
    · rw [if_neg hc] at hk
      exact absurd hk (by simp)
  · intro c c' h
    have hs : 255 - c ≤ 255 - c' := by omega
    exact min_le_min (le_refl 4) (Nat.div_le_div_right hs)
  · intro v hv
    rw [computeNozzles_nozzles_eq avg s pt hpt hdx] at hv
    refine brushLoop_nozzles_le (avg s.canvas) s.canvas.height 12 0 _ _ ?_ v hv
    intro u hu
    rw [List.eq_of_mem_replicate hu]
    omega

theorem c5_witness :
    s1.point = some (10, 10) ∧
    ∀ (k : ℕ) (w : Rect), (processedWindows (fun _ _ => 0) s1 (10, 10))[k]? = some w →
      (computeNozzles (fun _ _ => 0) s1).nozzles[k]? =
        some (levelOf ((fun (_ : Raster) (_ : Rect) => 0) s1.canvas w)) :=
  ⟨rfl, (c5_quantization (fun _ _ => 0) s1 (10, 10) rfl (by norm_num [s1])).1⟩

/-- C10: every window actually averaged lies fully above the canvas bottom
    (the bound is checked before the average is taken); the k-th averaged
    window is the one-row window k rows below the starting row, and its bank
    entry is the quantised average; every nozzle index whose window would
    cross the bottom edge is skipped with its bank entry left at 0. -/
theorem c10_window_safety (avg : Raster → Rect → ℕ) (s : PBState) (pt : Pt)
    (hpt : s.point = some pt) (hdx : 0 ≤ s.dx) (hin : collide s.canvas pt) :
    (∀ w ∈ processedWindows avg s pt, w.y + w.h ≤ s.canvas.height) ∧
    (∀ (k : ℕ) (w : Rect), (processedWindows avg s pt)[k]? = some w →
       w = ⟨pyInt pt.1, pyInt pt.2 + (k : ℤ), max 1 (pyInt |s.dx|), 1⟩ ∧
       (computeNozzles avg s).nozzles[k]? = some (levelOf (avg s.canvas w))) ∧
    (∀ (k : ℕ), k < 12 → (processedWindows avg s pt).length ≤ k →
       s.canvas.height < pyInt pt.2 + (k : ℤ) + 1 ∧
       (computeNozzles avg s).nozzles[k]? = some 0) := by
  obtain ⟨hx0, hxW, hy0, hyH⟩ := hin
  have hbx := brushX_of_nonneg s.dx pt hdx hx0
  have hP := processedWindows_length avg s pt
  refine ⟨?_, ?_, ?_⟩
  · intro w hw
    exact brushLoop_windows_bounded (avg s.canvas) s.canvas.height 12 0 _ _ w hw
  · intro k w hk
    rw [processedWindows_get avg s pt k] at hk
    by_cases hc : k < min 12 (s.canvas.height - pyInt pt.2).toNat
    · rw [if_pos hc] at hk
      obtain rfl := (Option.some.injEq _ _).mp hk
      constructor
      · rw [hbx]
      · rw [computeNozzles_get avg s pt hpt hdx k, if_pos hc]
    · rw [if_neg hc] at hk
      exact absurd hk (by simp)
  · intro k h12 hlen
    rw [hP] at hlen
    constructor
    · omega
    · rw [computeNozzles_get avg s pt hpt hdx k, if_neg (by omega)]
      exact List.getElem?_replicate_of_lt h12

theorem c10_witness :
    collide s1.canvas (10, 10) ∧
    ∀ w ∈ processedWindows (fun _ _ => 0) s1 (10, 10),
      w.y + w.h ≤ s1.canvas.height :=
  ⟨by decide,
   (c10_window_safety (fun _ _ => 0) s1 (10, 10) rfl (by norm_num [s1])
      (by decide)).1⟩

theorem c4_witness :
    collide s1.canvas (10, 10) ∧
    ((computeNozzles (fun _ _ => 0) s1).canvas.width = s1.canvas.width ∧
     (computeNozzles (fun _ _ => 0) s1).canvas.height = s1.canvas.height ∧
     ∀ px py : ℤ, 0 ≤ px → px < s1.canvas.width → 0 ≤ py → py < s1.canvas.height →
       (computeNozzles (fun _ _ => 0) s1).canvas.pix px py =
         if pyInt ((10 : ℚ), (10 : ℚ)).1 ≤ px ∧
            px < pyInt ((10 : ℚ), (10 : ℚ)).1 + max 1 (pyInt |s1.dx|) ∧
            pyInt ((10 : ℚ), (10 : ℚ)).2 ≤ py ∧
            py < pyInt ((10 : ℚ), (10 : ℚ)).2 +
              ((processedWindows (fun _ _ => 0) s1 (10, 10)).length : ℤ)
         then 255 else s1.canvas.pix px py) :=
  ⟨by decide,
   c4_blanking (fun _ _ => 0) s1 (10, 10) rfl (by norm_num [s1]) (by decide)⟩
